import Mathlib

/-!
Shallow embedding of the `regi` repository's core logic (region-code
resolution and PNU encoding), translated from `src/region.py` and
`src/region/region.py`, together with theorems settling the spec claims.

Python machine model used by the embedding:
* Python `str` values become Lean `String` / `List Char` (both count
  Unicode code points, so lengths and indexing agree).
* Python dict-shaped registry rows become a structure with `Option`
  fields (`dict.get` returning `None` for a missing key).
* Python exceptions become `Except String`.
* Python non-negative `int`s become `Nat`.
-/

/-- Regex class `\s` as used by `re.split(r"\s+", ...)` and the `산`
word-boundary patterns: ASCII whitespace. -/
def isWS (c : Char) : Bool :=
  c = ' ' || c = '\t' || c = '\n' || c = '\r' || c = '\x0b' || c = '\x0c'

/-- Python `str.strip()` on a list of characters. -/
def stripWS (l : List Char) : List Char :=
  ((l.dropWhile isWS).reverse.dropWhile isWS).reverse

/-- `re.sub(r"\D", "", s)`: keep only decimal digits. -/
def stripDigitsL (l : List Char) : List Char := l.filter Char.isDigit

/-- `re.sub(r"\D", "", s)` on a `String`. -/
def stripDigits (s : String) : String := String.mk (stripDigitsL s.data)

/-- Decimal digit character for `n < 10`. -/
def digitChar (n : Nat) : Char :=
  if n = 0 then '0' else if n = 1 then '1' else if n = 2 then '2'
  else if n = 3 then '3' else if n = 4 then '4' else if n = 5 then '5'
  else if n = 6 then '6' else if n = 7 then '7' else if n = 8 then '8'
  else '9'

/-- Fuel-driven decimal rendering of a natural number (Python `"%d"`),
most significant digit first. Fuel `n + 1` always suffices. -/
def decAux : Nat → Nat → List Char
  | 0, _ => []
  | fuel + 1, n =>
    if n < 10 then [digitChar n]
    else decAux fuel (n / 10) ++ [digitChar (n % 10)]

/-- Python `f"{n:d}"` for a non-negative `n`. -/
def decRender (n : Nat) : List Char := decAux (n + 1) n

/-- Python `f"{n:04d}"` for a non-negative `n`: left-pad the decimal
rendering with zeros up to width 4 (never truncates). -/
def pad4 (n : Nat) : List Char :=
  List.replicate (4 - (decRender n).length) '0' ++ decRender n

/-- Value of a list of decimal digit characters, most significant first. -/
def digitsToNat (l : List Char) : Nat :=
  l.foldl (fun a c => a * 10 + (c.toNat - 48)) 0

/-- Error message raised by `make_pnu` (`ValueError` in the source). -/
def invalidRegionMsg (region_cd : String) : String :=
  "region_cd 길이가 10이 아닙니다: " ++ region_cd

/-- `make_pnu` from `src/region.py` lines 142-150: strip non-digits from
the region code, require exactly 10 digits, then concatenate
region(10) + mountain flag(1) + main(4, zero-padded) + sub(4, zero-padded). -/
def make_pnu (region_cd : String) (san : Bool) (main sub : Nat) :
    Except String String :=
  let rc := stripDigitsL region_cd.data
  if rc.length = 10 then
    .ok (String.mk (rc ++ [if san then '1' else '0'] ++ pad4 main ++ pad4 sub))
  else
    .error (invalidRegionMsg region_cd)

/-- Modelled from the spec: the repository's sources contain no decode
operation; spec §4.5 describes "a companion decode operation (for
round-trip testing)" that "splits a 19-character string into its four
fixed-width fields positionally; fails if the input length is not
exactly 19 or any numeric field is non-digit". Fields are positional:
10-digit region code, 1-digit mountain flag, 4-digit main, 4-digit sub. -/
def decode_pnu (p : String) : Except String (String × Bool × Nat × Nat) :=
  let l := p.data
  if l.length = 19 then
    let rc := l.take 10
    let flagF := (l.drop 10).take 1
    let mainF := (l.drop 11).take 4
    let subF := (l.drop 15).take 4
    if rc.all Char.isDigit && flagF.all Char.isDigit &&
        mainF.all Char.isDigit && subF.all Char.isDigit then
      .ok (String.mk rc, flagF == ['1'], digitsToNat mainF, digitsToNat subF)
    else
      .error "PNU numeric field contains a non-digit"
  else
    .error "PNU length is not 19"

example : make_pnu "1168010300" true 2 14 = .ok "1168010300100020014" := rfl
example : decode_pnu "1168010300100020014" = .ok ("1168010300", true, 2, 14) := rfl
example : make_pnu "1234567890" false 10000 0 = .ok "12345678900100000000" := rfl

/-! ### Lemmas about decimal rendering -/

theorem digitChar_isDigit {n : Nat} (h : n < 10) : (digitChar n).isDigit = true := by
  interval_cases n <;> rfl

theorem digitChar_toNat {n : Nat} (h : n < 10) : (digitChar n).toNat - 48 = n := by
  interval_cases n <;> rfl

theorem decAux_fuel (n : Nat) :
    ∀ f g, n < f → n < g → decAux f n = decAux g n := by
  induction n using Nat.strong_induction_on with
  | _ n ih =>
    intro f g hf hg
    match f, g with
    | f + 1, g + 1 =>
      simp only [decAux]
      split
      · rfl
      · rename_i h
        have h10 : 10 ≤ n := Nat.le_of_not_lt h
        have hdiv : n / 10 < n := Nat.div_lt_self (by omega) (by omega)
        rw [ih (n / 10) hdiv f g (by omega) (by omega)]

theorem decRender_eq_of_lt {n : Nat} (h : n < 10) :
    decRender n = [digitChar n] := by
  simp [decRender, decAux, h]

theorem decRender_eq_of_ge {n : Nat} (h : 10 ≤ n) :
    decRender n = decRender (n / 10) ++ [digitChar (n % 10)] := by
  have hdiv : n / 10 < n := Nat.div_lt_self (by omega) (by omega)
  have h1 : decRender n = decAux n (n / 10) ++ [digitChar (n % 10)] := by
    rw [decRender, decAux, if_neg (Nat.not_lt.mpr h)]
  rw [h1, decAux_fuel (n / 10) n (n / 10 + 1) hdiv (Nat.lt_succ_self _), decRender]

theorem decRender_length_le : ∀ k n, 0 < k → n < 10 ^ k →
    (decRender n).length ≤ k := by
  intro k
  induction k with
  | zero => omega
  | succ k ih =>
    intro n _ hn
    by_cases h : n < 10
    · rw [decRender_eq_of_lt h]; simp
    · push_neg at h
      rw [decRender_eq_of_ge h]
      have hk : 0 < k := by
        by_contra hk0
        have : k = 0 := by omega
        subst this
        simp [pow_succ, pow_zero] at hn
        omega
      have hdiv : n / 10 < 10 ^ k := by
        rw [Nat.div_lt_iff_lt_mul (by omega)]
        calc n < 10 ^ (k + 1) := hn
        _ = 10 ^ k * 10 := by rw [pow_succ]
      have := ih (n / 10) hk hdiv
      simp [List.length_append]
      omega

theorem decRender_all_digit (n : Nat) :
    ∀ c ∈ decRender n, c.isDigit = true := by
  induction n using Nat.strong_induction_on with
  | _ n ih =>
    by_cases h : n < 10
    · rw [decRender_eq_of_lt h]
      intro c hc
      simp at hc
      subst hc
      exact digitChar_isDigit h
    · push_neg at h
      rw [decRender_eq_of_ge h]
      intro c hc
      rcases List.mem_append.mp hc with hc | hc
      · exact ih (n / 10) (Nat.div_lt_self (by omega) (by omega)) c hc
      · simp at hc
        subst hc
        exact digitChar_isDigit (Nat.mod_lt _ (by omega))

theorem digitsToNat_append_singleton (l : List Char) (c : Char) :
    digitsToNat (l ++ [c]) = digitsToNat l * 10 + (c.toNat - 48) := by
  simp [digitsToNat, List.foldl_append]

theorem digitsToNat_decRender (n : Nat) : digitsToNat (decRender n) = n := by
  induction n using Nat.strong_induction_on with
  | _ n ih =>
    by_cases h : n < 10
    · rw [decRender_eq_of_lt h]
      simp [digitsToNat, digitChar_toNat h]
    · push_neg at h
      rw [decRender_eq_of_ge h, digitsToNat_append_singleton,
        ih (n / 10) (Nat.div_lt_self (by omega) (by omega)),
        digitChar_toNat (Nat.mod_lt _ (by omega))]
      omega

theorem digitsToNat_replicate_zero (k : Nat) (l : List Char) :
    digitsToNat (List.replicate k '0' ++ l) = digitsToNat l := by
  induction k with
  | zero => simp
  | succ k ih =>
    rw [List.replicate_succ, List.cons_append]
    simpa [digitsToNat] using ih

theorem pad4_length {n : Nat} (h : n ≤ 9999) : (pad4 n).length = 4 := by
  have hlen : (decRender n).length ≤ 4 :=
    decRender_length_le 4 n (by omega) (by omega)
  simp [pad4, List.length_append, List.length_replicate]
  omega

theorem pad4_all_digit (n : Nat) : ∀ c ∈ pad4 n, c.isDigit = true := by
  intro c hc
  rcases List.mem_append.mp hc with hc | hc
  · rw [List.eq_of_mem_replicate hc]; rfl
  · exact decRender_all_digit n c hc

theorem digitsToNat_pad4 (n : Nat) : digitsToNat (pad4 n) = n := by
  rw [pad4, digitsToNat_replicate_zero, digitsToNat_decRender]

/-! ### PNU codec theorems -/

theorem stripDigits_length (s : String) :
    (stripDigits s).length = (stripDigitsL s.data).length := rfl

theorem decode_pnu_fields (rc : List Char) (fl : Char) (A B : List Char)
    (h10 : rc.length = 10) (hA : A.length = 4) (hB : B.length = 4)
    (hrcd : rc.all Char.isDigit = true) (hfld : fl.isDigit = true)
    (hAd : A.all Char.isDigit = true) (hBd : B.all Char.isDigit = true) :
    decode_pnu (String.mk (rc ++ ([fl] ++ (A ++ B)))) =
      .ok (String.mk rc, [fl] == ['1'], digitsToNat A, digitsToNat B) := by
  have hdata : (String.mk (rc ++ ([fl] ++ (A ++ B)))).data
      = rc ++ ([fl] ++ (A ++ B)) := rfl
  have hlen : (rc ++ ([fl] ++ (A ++ B))).length = 19 := by
    simp [List.length_append, h10, hA, hB]
  have htake10 : (rc ++ ([fl] ++ (A ++ B))).take 10 = rc :=
    List.take_left' h10
  have hdrop10 : (rc ++ ([fl] ++ (A ++ B))).drop 10 = [fl] ++ (A ++ B) :=
    List.drop_left' h10
  have hflag : (([fl] ++ (A ++ B)).take 1) = [fl] :=
    List.take_left' rfl
  have hassoc1 : rc ++ ([fl] ++ (A ++ B)) = (rc ++ [fl]) ++ (A ++ B) :=
    (List.append_assoc _ _ _).symm
  have hdrop11 : (rc ++ ([fl] ++ (A ++ B))).drop 11 = A ++ B := by
    rw [hassoc1]
    exact List.drop_left' (by simp [h10])
  have hmainF : ((rc ++ ([fl] ++ (A ++ B))).drop 11).take 4 = A := by
    rw [hdrop11]; exact List.take_left' hA
  have hdrop15 : (rc ++ ([fl] ++ (A ++ B))).drop 15 = B := by
    rw [hassoc1, ← List.append_assoc]
    exact List.drop_left' (by simp [h10, hA])
  have hsubF : ((rc ++ ([fl] ++ (A ++ B))).drop 15).take 4 = B := by
    rw [hdrop15, ← hB, List.take_length]
  simp only [decode_pnu, hdata, hlen, if_pos, htake10, hdrop10, hflag,
    hmainF, hsubF, hrcd, hAd, hBd, List.all_cons, List.all_nil, hfld,
    Bool.and_true, Bool.true_and, if_true]

/-- C1: for every region code whose digit-stripped form is exactly 10
digits, every mountain flag, and all `main`, `sub` in `[0, 9999]`,
decoding the PNU built by `make_pnu` yields back the stripped region
code, the flag, and the two lot numbers. -/
theorem pnu_roundtrip (r : String) (m : Bool) (main sub : Nat)
    (hr : (stripDigits r).length = 10) (hm : main ≤ 9999) (hs : sub ≤ 9999) :
    (make_pnu r m main sub).bind decode_pnu =
      Except.ok (stripDigits r, m, main, sub) := by
  have hrc : (stripDigitsL r.data).length = 10 := hr
  have hm4 : (pad4 main).length = 4 := pad4_length hm
  have hs4 : (pad4 sub).length = 4 := pad4_length hs
  have hrcd : (stripDigitsL r.data).all Char.isDigit = true := by
    rw [List.all_eq_true]
    intro c hc
    exact (List.mem_filter.mp hc).2
  have hAd : (pad4 main).all Char.isDigit = true := by
    rw [List.all_eq_true]; exact pad4_all_digit main
  have hBd : (pad4 sub).all Char.isDigit = true := by
    rw [List.all_eq_true]; exact pad4_all_digit sub
  have hmk : make_pnu r m main sub =
      .ok (String.mk (stripDigitsL r.data ++
        ([if m then '1' else '0'] ++ (pad4 main ++ pad4 sub)))) := by
    simp only [make_pnu, hrc, if_pos, List.append_assoc]
  rw [hmk]
  show decode_pnu _ = _
  rw [decode_pnu_fields _ _ _ _ hrc hm4 hs4 hrcd
    (by cases m <;> rfl) hAd hBd]
  cases m <;>
    simp [stripDigits, digitsToNat_pad4]

/-- C1 witness: round trip at a concrete region code and lot. -/
theorem pnu_roundtrip_witness :
    (make_pnu "11680-10300" true 2 14).bind decode_pnu =
      Except.ok (stripDigits "11680-10300", true, 2, 14) :=
  pnu_roundtrip "11680-10300" true 2 14 (by decide) (by decide) (by decide)

/-- C6 (amended): `make_pnu` fails with the invalid-region-code error
exactly when the digit-stripped region code is not 10 characters long,
and — provided `main` and `sub` each fit in 4 digits (`≤ 9999`, the
documented input-validation limitation of the codec) — every returned
PNU string has length exactly 19. -/
theorem make_pnu_invariant (r : String) (san : Bool) (main sub : Nat)
    (hm : main ≤ 9999) (hs : sub ≤ 9999) :
    (make_pnu r san main sub = .error (invalidRegionMsg r) ↔
      (stripDigits r).length ≠ 10) ∧
    (∀ s, make_pnu r san main sub = .ok s → s.length = 19) := by
  have hm4 : (pad4 main).length = 4 := pad4_length hm
  have hs4 : (pad4 sub).length = 4 := pad4_length hs
  by_cases h : (stripDigitsL r.data).length = 10
  · have hmk : make_pnu r san main sub =
        .ok (String.mk (stripDigitsL r.data ++
          ([if san then '1' else '0'] ++ (pad4 main ++ pad4 sub)))) := by
      simp only [make_pnu, h, if_pos, List.append_assoc]
    constructor
    · rw [hmk]
      constructor
      · intro hcontra
        exact absurd hcontra (by simp)
      · intro hcontra
        exact absurd (stripDigits_length r ▸ h) hcontra
    · intro s hsok
      rw [hmk] at hsok
      have : s = String.mk (stripDigitsL r.data ++
          ([if san then '1' else '0'] ++ (pad4 main ++ pad4 sub))) := by
        exact (Except.ok.injEq _ _ ▸ hsok.symm : _)
      subst this
      show (stripDigitsL r.data ++
          ([if san then '1' else '0'] ++ (pad4 main ++ pad4 sub))).length = 19
      simp [List.length_append, h, hm4, hs4]
  · have hmk : make_pnu r san main sub = .error (invalidRegionMsg r) := by
      simp only [make_pnu, h, if_neg, if_false]
    constructor
    · rw [hmk]
      simp [stripDigits_length, h]
    · intro s hsok
      rw [hmk] at hsok
      exact absurd hsok (by simp)

/-- C6 witness: a valid region code with in-range lot numbers produces a
19-character PNU. -/
theorem make_pnu_invariant_witness :
    make_pnu "1234567890" false 3 4 = Except.ok "1234567890000030004" ∧
    ("1234567890000030004" : String).length = 19 :=
  ⟨rfl, (make_pnu_invariant "1234567890" false 3 4 (by decide)
    (by decide)).2 "1234567890000030004" rfl⟩

/-- C6 counterexample: with a valid region code but `main = 10000`
(which needs 5 digits), `make_pnu` raises nothing and returns a
20-character string, so the claim's "for every main, sub input ...
returns a string of length exactly 19" is false on the code. -/
theorem make_pnu_c6_counterexample :
    make_pnu "1234567890" false 10000 0 = Except.ok "12345678900100000000" ∧
    ("12345678900100000000" : String).length = 20 := by
  constructor
  · rfl
  · rfl

/-! ### Lot parser (`parse_lot`, `src/region.py` lines 114-140) -/

/-- One attempt of the regex `(?:^|\s)산(?:\s|$)` at the current
position: first the `^` alternative (only at the very start of the
string), then the `\s` alternative (which consumes the whitespace
character at the current position). On success, returns the rest of the
string with the matched text replaced by a single `' '` (the
replacement string of the `re.sub` call); `none` if no match starts
here. -/
def sanTryAt (atStart : Bool) (l : List Char) : Option (List Char) :=
  let b1 : Option (List Char) :=
    if atStart then
      match l with
      | [] => none
      | c1 :: rest =>
        if c1 = '산' then
          match rest with
          | [] => some [' ']
          | c :: rest2 => if isWS c then some (' ' :: rest2) else none
        else none
    else none
  let b2 : Option (List Char) :=
    match l with
    | c :: c2 :: rest =>
      if isWS c then
        if c2 = '산' then
          match rest with
          | [] => some [' ']
          | d :: rest2 => if isWS d then some (' ' :: rest2) else none
        else none
      else none
    | _ => none
  b1 <|> b2

/-- `re.search(r"(?:^|\s)산(?:\s|$)", s)` as a boolean: scan positions
left to right. -/
def sanSearch : Bool → List Char → Bool
  | atStart, [] => (sanTryAt atStart []).isSome
  | atStart, c :: rest => (sanTryAt atStart (c :: rest)).isSome || sanSearch false rest

/-- `re.sub(r"(?:^|\s)산(?:\s|$)", " ", s, count=1)`: replace the
leftmost match (if any) by a single space. -/
def sanSub1 : Bool → List Char → List Char
  | _, [] => []
  | atStart, c :: rest =>
    match sanTryAt atStart (c :: rest) with
    | some r => r
    | none => c :: sanSub1 false rest

/-- `re.search(r"(\d+)(?:\s*-\s*(\d+))?", s)`: find the leftmost digit
run; after it, an optional `-` (with surrounding whitespace) followed by
a second digit run gives the sub number, defaulting to 0. -/
def findNum : List Char → Option (Nat × Nat)
  | [] => none
  | c :: rest =>
    if c.isDigit then
      let ds := (c :: rest).takeWhile Char.isDigit
      let rest1 := (c :: rest).dropWhile Char.isDigit
      match rest1.dropWhile isWS with
      | '-' :: rest3 =>
        let ds2 := (rest3.dropWhile isWS).takeWhile Char.isDigit
        if ds2 = [] then some (digitsToNat ds, 0)
        else some (digitsToNat ds, digitsToNat ds2)
      | _ => some (digitsToNat ds, 0)
    else findNum rest

/-- `parse_lot` from `src/region.py` lines 114-140: detect and remove
the first standalone `산` token, then extract `main(-sub)` from the
first digit pattern. Returns `(san, main, sub)` with `san ∈ {0, 1}`. -/
def parse_lot (lot : String) : Except String (Nat × Nat × Nat) :=
  if lot = "" then .error "지번(lot)이 비어 있습니다."
  else
    let s := stripWS lot.data
    let san : Nat := if sanSearch true s then 1 else 0
    let s2 := stripWS (sanSub1 true s)
    match findNum s2 with
    | none => .error ("지번 형식을 해석할 수 없습니다: " ++ lot)
    | some (m, sb) => .ok (san, m, sb)

example : parse_lot "2-14" = .ok (0, 2, 14) := rfl
example : parse_lot "산 176-18" = .ok (1, 176, 18) := rfl
example : parse_lot "176" = .ok (0, 176, 0) := rfl
example : parse_lot "176-0" = .ok (0, 176, 0) := rfl
example : parse_lot "양재동 산 1-1" = .ok (1, 1, 1) := rfl
example : parse_lot "산176-18" = .ok (0, 176, 18) := rfl
example : parse_lot "산 5 산 - 7" = .ok (1, 5, 0) := rfl
example : parse_lot "abc" = .error "지번 형식을 해석할 수 없습니다: abc" := rfl

/-! ### Characterizing the standalone `산` token -/

/-- The right boundary `(?:\s|$)`: the following text is empty or starts
with whitespace. -/
def boundaryWS (post : List Char) : Prop :=
  post = [] ∨ ∃ d post2, post = d :: post2 ∧ isWS d = true

/-- A match of `^산(?:\s|$)` at the start of the string. -/
def startMatch (l : List Char) : Prop :=
  ∃ post, l = '산' :: post ∧ boundaryWS post

/-- A match of `\s산(?:\s|$)` starting at the current position. -/
def midMatch0 (l : List Char) : Prop :=
  ∃ c post, l = c :: '산' :: post ∧ isWS c = true ∧ boundaryWS post

/-- A match of `\s산(?:\s|$)` anywhere in the string. -/
def sanTokenMid (l : List Char) : Prop :=
  ∃ pre c post, l = pre ++ c :: '산' :: post ∧ isWS c = true ∧ boundaryWS post

/-- `산` occurs as a standalone token: bounded on the left by whitespace
or the string start, and on the right by whitespace or the string end. -/
def sanToken (l : List Char) : Prop :=
  ∃ pre post, l = pre ++ '산' :: post ∧
    (pre = [] ∨ ∃ pre2 c, pre = pre2 ++ [c] ∧ isWS c = true) ∧
    boundaryWS post

theorem sanTryAt_false_isSome (l : List Char) :
    (sanTryAt false l).isSome = true ↔ midMatch0 l := by
  rcases l with _ | ⟨c1, _ | ⟨c2, _ | ⟨c3, rest⟩⟩⟩ <;>
    simp only [sanTryAt, if_false, Bool.false_eq_true, Option.orElse] <;>
    constructor <;> intro h
  · simp at h
  · rcases h with ⟨c, post, heq, _⟩; simp at heq
  · simp at h
  · rcases h with ⟨c, post, heq, _⟩; simp at heq
  · by_cases hw : isWS c1
    · by_cases hs : c2 = '산'
      · subst hs
        exact ⟨c1, [], rfl, hw, Or.inl rfl⟩
      · simp [hw, hs] at h
    · simp [hw] at h
  · rcases h with ⟨c, post, heq, hw, _⟩
    simp at heq
    obtain ⟨rfl, rfl, rfl⟩ := heq
    simp [hw]
  · by_cases hw : isWS c1
    · by_cases hs : c2 = '산'
      · subst hs
        by_cases hd : isWS c3
        · exact ⟨c1, c3 :: rest, rfl, hw, Or.inr ⟨c3, rest, rfl, hd⟩⟩
        · simp [hw, hd] at h
      · simp [hw, hs] at h
    · simp [hw] at h
  · rcases h with ⟨c, post, heq, hw, hb⟩
    simp at heq
    obtain ⟨rfl, rfl, rfl⟩ := heq
    rcases hb with hb | ⟨d, post2, heq2, hd⟩
    · simp at hb
    · simp at heq2
      obtain ⟨rfl, rfl⟩ := heq2
      simp [hw, hd]

theorem sanTryAt_true_isSome (l : List Char) :
    (sanTryAt true l).isSome = true ↔ startMatch l ∨ midMatch0 l := by
  have hfalse := sanTryAt_false_isSome l
  rcases l with _ | ⟨c1, rest⟩
  · simp only [sanTryAt, Option.orElse]
    constructor
    · intro h; simp at h
    · rintro (⟨post, heq, _⟩ | ⟨c, post, heq, _⟩) <;> simp at heq
  · by_cases hs : c1 = '산'
    · subst hs
      rcases rest with _ | ⟨c2, rest2⟩
      · constructor
        · intro _; exact Or.inl ⟨[], rfl, Or.inl rfl⟩
        · intro _; rfl
      · by_cases hw : isWS c2
        · constructor
          · intro _
            exact Or.inl ⟨c2 :: rest2, rfl, Or.inr ⟨c2, rest2, rfl, hw⟩⟩
          · intro _
            simp [sanTryAt, hw]
        · -- `^산` matched but the right boundary fails; fall through to
          -- the `\s` alternative, which needs a whitespace first char.
          have h1 : (sanTryAt true ('산' :: c2 :: rest2)).isSome
              = (sanTryAt false ('산' :: c2 :: rest2)).isSome := by
            simp [sanTryAt, hw]
          rw [h1, hfalse]
          constructor
          · exact Or.inr
          · rintro (⟨post, heq, hb⟩ | h)
            · simp at heq
              obtain ⟨rfl, rfl⟩ := heq
              rcases hb with hb | ⟨d, post2, heq2, hd⟩
              · simp at hb
              · simp at heq2
                obtain ⟨rfl, rfl⟩ := heq2
                exact absurd hd (by simp [hw])
            · exact h
    · have h1 : (sanTryAt true (c1 :: rest)).isSome
          = (sanTryAt false (c1 :: rest)).isSome := by
        simp [sanTryAt, hs]
      rw [h1, hfalse]
      constructor
      · exact Or.inr
      · rintro (⟨post, heq, _⟩ | h)
        · simp at heq
          exact absurd heq.1 hs
        · exact h

theorem sanTokenMid_cons (c0 : Char) (rest : List Char) :
    sanTokenMid (c0 :: rest) ↔ midMatch0 (c0 :: rest) ∨ sanTokenMid rest := by
  constructor
  · rintro ⟨pre, c, post, heq, hw, hb⟩
    rcases pre with _ | ⟨p0, pre'⟩
    · simp at heq
      obtain ⟨rfl, rfl⟩ := heq
      exact Or.inl ⟨c0, post, rfl, hw, hb⟩
    · simp at heq
      obtain ⟨rfl, heq'⟩ := heq
      exact Or.inr ⟨pre', c, post, heq', hw, hb⟩
  · rintro (⟨c, post, heq, hw, hb⟩ | ⟨pre, c, post, heq, hw, hb⟩)
    · exact ⟨[], c, post, by simp [heq], hw, hb⟩
    · exact ⟨c0 :: pre, c, post, by simp [heq], hw, hb⟩

theorem sanSearch_false_iff (l : List Char) :
    sanSearch false l = true ↔ sanTokenMid l := by
  induction l with
  | nil =>
    simp only [sanSearch, sanTryAt, Option.orElse]
    constructor
    · intro h; simp at h
    · rintro ⟨pre, c, post, heq, _⟩
      exact absurd heq (by simp)
  | cons c0 rest ih =>
    rw [sanSearch, Bool.or_eq_true, sanTryAt_false_isSome, ih,
      sanTokenMid_cons]

theorem sanSearch_true_iff (l : List Char) :
    sanSearch true l = true ↔ startMatch l ∨ sanTokenMid l := by
  rcases l with _ | ⟨c0, rest⟩
  · simp only [sanSearch, sanTryAt, Option.orElse]
    constructor
    · intro h; simp at h
    · rintro (⟨post, heq, _⟩ | ⟨pre, c, post, heq, _⟩) <;>
        exact absurd heq (by simp)
  · rw [sanSearch, Bool.or_eq_true, sanTryAt_true_isSome,
      sanSearch_false_iff]
    constructor
    · rintro ((h | h) | h)
      · exact Or.inl h
      · exact Or.inr ((sanTokenMid_cons c0 rest).mpr (Or.inl h))
      · exact Or.inr ((sanTokenMid_cons c0 rest).mpr (Or.inr h))
    · rintro (h | h)
      · exact Or.inl (Or.inl h)
      · rcases (sanTokenMid_cons c0 rest).mp h with h | h
        · exact Or.inl (Or.inr h)
        · exact Or.inr h

theorem sanToken_iff_start_or_mid (l : List Char) :
    sanToken l ↔ startMatch l ∨ sanTokenMid l := by
  constructor
  · rintro ⟨pre, post, heq, hpre, hb⟩
    rcases hpre with rfl | ⟨pre2, c, rfl, hw⟩
    · exact Or.inl ⟨post, by simpa using heq, hb⟩
    · refine Or.inr ⟨pre2, c, post, ?_, hw, hb⟩
      rw [heq, List.append_assoc]
      rfl
  · rintro (⟨post, heq, hb⟩ | ⟨pre, c, post, heq, hw, hb⟩)
    · exact ⟨[], post, by simpa using heq, Or.inl rfl, hb⟩
    · refine ⟨pre ++ [c], post, ?_, Or.inr ⟨pre, c, rfl, hw⟩, hb⟩
      rw [heq, List.append_assoc]
      rfl

theorem sanSearch_iff_sanToken (l : List Char) :
    sanSearch true l = true ↔ sanToken l := by
  rw [sanSearch_true_iff, sanToken_iff_start_or_mid]

theorem sanToken_reverse_mp {l : List Char} (h : sanToken l) :
    sanToken l.reverse := by
  obtain ⟨pre, post, rfl, hpre, hb⟩ := h
  refine ⟨post.reverse, pre.reverse, ?_, ?_, ?_⟩
  · simp
  · rcases hb with rfl | ⟨d, post2, rfl, hd⟩
    · exact Or.inl rfl
    · exact Or.inr ⟨post2.reverse, d, by simp, hd⟩
  · rcases hpre with rfl | ⟨pre2, c, rfl, hwc⟩
    · exact Or.inl rfl
    · exact Or.inr ⟨c, pre2.reverse, by simp, hwc⟩

theorem sanToken_reverse (l : List Char) :
    sanToken l.reverse ↔ sanToken l := by
  constructor
  · intro h
    have := sanToken_reverse_mp h
    rwa [List.reverse_reverse] at this
  · exact sanToken_reverse_mp

theorem sanToken_cons_ws {w : Char} (hw : isWS w = true) (l : List Char) :
    sanToken (w :: l) ↔ sanToken l := by
  constructor
  · rintro ⟨pre, post, heq, hpre, hb⟩
    rcases pre with _ | ⟨p0, pre'⟩
    · simp at heq
      obtain ⟨rfl, rfl⟩ := heq
      exact absurd hw (by decide)
    · simp at heq
      obtain ⟨rfl, heq'⟩ := heq
      refine ⟨pre', post, heq', ?_, hb⟩
      rcases hpre with hnil | ⟨pre2, c, hconcat, hwc⟩
      · exact absurd hnil (by simp)
      · rcases pre2 with _ | ⟨q0, pre2'⟩
        · simp at hconcat
          exact Or.inl hconcat.2
        · simp at hconcat
          exact Or.inr ⟨pre2', c, hconcat.2, hwc⟩
  · rintro ⟨pre, post, heq, hpre, hb⟩
    refine ⟨w :: pre, post, by simp [heq], ?_, hb⟩
    rcases hpre with rfl | ⟨pre2, c, rfl, hwc⟩
    · exact Or.inr ⟨[], w, rfl, hw⟩
    · exact Or.inr ⟨w :: pre2, c, by simp, hwc⟩

theorem sanToken_dropWhile (l : List Char) :
    sanToken (l.dropWhile isWS) ↔ sanToken l := by
  induction l with
  | nil => simp [List.dropWhile]
  | cons c rest ih =>
    by_cases h : isWS c
    · rw [List.dropWhile_cons_of_pos h, ih, sanToken_cons_ws h]
    · rw [List.dropWhile_cons_of_neg h]

theorem sanToken_stripWS (l : List Char) :
    sanToken (stripWS l) ↔ sanToken l := by
  rw [stripWS, sanToken_reverse, sanToken_dropWhile, sanToken_reverse,
    sanToken_dropWhile]

/-- `true` exactly on the `error` constructor (a raised exception). -/
def isErr {ε α : Type} : Except ε α → Bool
  | .error _ => true
  | .ok _ => false

theorem sanTryAt_chars {b : Bool} {l r : List Char}
    (h : sanTryAt b l = some r) : ∀ c ∈ r, c = ' ' ∨ c ∈ l := by
  intro c hc
  rcases l with _ | ⟨c1, _ | ⟨c2, rest⟩⟩ <;> cases b <;>
      simp only [sanTryAt, if_true, if_false, Option.orElse] at h
  · exact absurd h (by simp)
  · exact absurd h (by simp)
  · exact absurd h (by simp)
  · by_cases hs : c1 = '산'
    · subst hs
      simp at h
      subst h
      simp at hc
      exact Or.inl hc
    · simp [hs] at h
  · by_cases hw : isWS c1
    · by_cases hs : c2 = '산'
      · subst hs
        rcases rest with _ | ⟨c3, rest2⟩
        · simp [hw] at h
          subst h
          simp at hc
          exact Or.inl hc
        · by_cases hd : isWS c3
          · simp [hw, hd] at h
            subst h
            simp at hc
            rcases hc with rfl | hc
            · exact Or.inl rfl
            · exact Or.inr (by simp [hc])
          · simp [hw, hd] at h
      · simp [hw, hs] at h
    · simp [hw] at h
  · by_cases hs : c1 = '산'
    · subst hs
      rcases rest with _ | ⟨c3, rest2⟩
      · by_cases hw : isWS c2
        · simp [hw] at h
          subst h
          simp at hc
          exact Or.inl hc
        · have hsw : isWS '산' = false := by decide
          simp [hw, hsw] at h
      · by_cases hw : isWS c2
        · simp [hw] at h
          subst h
          simp at hc
          rcases hc with rfl | hc
          · exact Or.inl rfl
          · exact Or.inr (by simp [hc])
        · have hsw : isWS '산' = false := by decide
          simp [hw, hsw] at h
    · -- c1 is not '산': only the `\s` alternative can fire
      have : sanTryAt false (c1 :: c2 :: rest) = some r := by
        simpa [sanTryAt, hs] using h
      clear h
      by_cases hw : isWS c1
      · by_cases hs2 : c2 = '산'
        · subst hs2
          rcases rest with _ | ⟨c3, rest2⟩
          · simp [sanTryAt, hw] at this
            subst this
            simp at hc
            exact Or.inl hc
          · by_cases hd : isWS c3
            · simp [sanTryAt, hw, hd] at this
              subst this
              simp at hc
              rcases hc with rfl | hc
              · exact Or.inl rfl
              · exact Or.inr (by simp [hc])
            · simp [sanTryAt, hw, hd] at this
        · simp [sanTryAt, hw, hs2] at this
      · simp [sanTryAt, hw] at this

theorem sanSub1_chars : ∀ (b : Bool) (l : List Char),
    ∀ c ∈ sanSub1 b l, c = ' ' ∨ c ∈ l := by
  intro b l
  induction l generalizing b with
  | nil => intro c hc; simp [sanSub1] at hc
  | cons c0 rest ih =>
    intro c hc
    rw [sanSub1] at hc
    rcases htry : sanTryAt b (c0 :: rest) with _ | r
    · rw [htry] at hc
      simp at hc
      rcases hc with rfl | hc
      · exact Or.inr (by simp)
      · rcases ih false c hc with h | h
        · exact Or.inl h
        · exact Or.inr (by simp [h])
    · rw [htry] at hc
      exact sanTryAt_chars htry c hc

theorem stripWS_subset (l : List Char) : ∀ c ∈ stripWS l, c ∈ l := by
  intro c hc
  rw [stripWS] at hc
  rw [List.mem_reverse] at hc
  have hc1 := (List.dropWhile_sublist (l := (l.dropWhile isWS).reverse)
    (p := isWS)).subset hc
  rw [List.mem_reverse] at hc1
  exact (List.dropWhile_sublist (l := l) (p := isWS)).subset hc1

theorem findNum_eq_none {l : List Char} (h : ∀ c ∈ l, c.isDigit = false) :
    findNum l = none := by
  induction l with
  | nil => rfl
  | cons c rest ih =>
    have hc := h c (by simp)
    rw [findNum, if_neg (by simp [hc])]
    exact ih (fun d hd => h d (by simp [hd]))

theorem parse_lot_no_digit (t : String) (h : ∀ c ∈ t.data, c.isDigit = false) :
    isErr (parse_lot t) = true := by
  by_cases ht : t = ""
  · simp [parse_lot, ht, isErr]
  · have hnum : findNum (stripWS (sanSub1 true (stripWS t.data))) = none := by
      apply findNum_eq_none
      intro c hc
      have hc1 : c ∈ sanSub1 true (stripWS t.data) := stripWS_subset _ c hc
      rcases sanSub1_chars true _ c hc1 with rfl | hc2
      · rfl
      · exact h c (stripWS_subset _ c hc2)
    simp only [parse_lot, ht, if_false, hnum, isErr]

theorem parse_lot_san_iff (lot : String) (s m b : Nat)
    (h : parse_lot lot = .ok (s, m, b)) : s = 1 ↔ sanToken lot.data := by
  by_cases ht : lot = ""
  · rw [ht] at h
    exact absurd h (by simp [parse_lot])
  · rw [parse_lot, if_neg ht] at h
    simp only [] at h
    rcases hf : findNum (stripWS (sanSub1 true (stripWS lot.data)))
      with _ | ⟨m', b'⟩
    · rw [hf] at h
      exact absurd h (by simp)
    · rw [hf] at h
      simp only [Except.ok.injEq, Prod.mk.injEq] at h
      obtain ⟨hs, _, _⟩ := h
      rw [← hs]
      by_cases hsearch : sanSearch true (stripWS lot.data) = true
      · rw [if_pos hsearch]
        constructor
        · intro _
          exact (sanToken_stripWS _).mp ((sanSearch_iff_sanToken _).mp hsearch)
        · intro _; rfl
      · rw [if_neg hsearch]
        constructor
        · intro h0
          exact absurd h0 (by omega)
        · intro htok
          exact absurd
            ((sanSearch_iff_sanToken _).mpr ((sanToken_stripWS _).mpr htok))
            hsearch

/-- C7: concrete lot parses (`"2-14"`, `"산 176-18"`, `"176"`), failure
on any digit-free input, the mountain flag set exactly when `산` occurs
as a standalone whitespace/edge-bounded token, and removal of only the
first such occurrence before number extraction (witnessed by
`"산 5 산 - 7"`, where the surviving second `산` blocks the `-  7` sub
number). -/
theorem parse_lot_claims :
    parse_lot "2-14" = .ok (0, 2, 14) ∧
    parse_lot "산 176-18" = .ok (1, 176, 18) ∧
    parse_lot "176" = .ok (0, 176, 0) ∧
    (∀ t : String, (∀ c ∈ t.data, c.isDigit = false) →
      isErr (parse_lot t) = true) ∧
    (∀ (lot : String) (s m b : Nat), parse_lot lot = .ok (s, m, b) →
      (s = 1 ↔ sanToken lot.data)) ∧
    parse_lot "산 5 산 - 7" = .ok (1, 5, 0) :=
  ⟨rfl, rfl, rfl, parse_lot_no_digit, parse_lot_san_iff, rfl⟩

/-! ### Code filter (`_filter_codes`) -/

/-- Python's substring test `needle in hay` as a boolean scan. -/
def substrB (nee : List Char) : List Char → Bool
  | [] => nee.isPrefixOf []
  | c :: t => nee.isPrefixOf (c :: t) || substrB nee t

/-- `needle` occurs contiguously inside `hay`. -/
def Substr (nee hay : List Char) : Prop := ∃ s t, hay = s ++ nee ++ t

theorem substrB_iff (nee : List Char) :
    ∀ hay, substrB nee hay = true ↔ Substr nee hay := by
  intro hay
  induction hay with
  | nil =>
    rw [substrB, List.isPrefixOf_iff_prefix]
    constructor
    · intro h
      obtain ⟨t, ht⟩ := h
      exact ⟨[], t, by simp [← ht]⟩
    · rintro ⟨s, t, heq⟩
      rcases List.append_eq_nil.mp (List.append_eq_nil.mp heq.symm).1 with ⟨rfl, rfl⟩
      exact ⟨[], by simp⟩
  | cons c rest ih =>
    rw [substrB, Bool.or_eq_true, List.isPrefixOf_iff_prefix, ih]
    constructor
    · rintro (⟨t, ht⟩ | ⟨s, t, heq⟩)
      · exact ⟨[], t, by simp [← ht]⟩
      · exact ⟨c :: s, t, by simp [heq]⟩
    · rintro ⟨s, t, heq⟩
      rcases s with _ | ⟨s0, s'⟩
      · simp at heq
        exact Or.inl ⟨t, by simp [heq]⟩
      · simp at heq
        exact Or.inr ⟨s', t, by rw [heq.2, List.append_assoc]⟩

/-- A registry row: the three fields `_filter_codes` reads, each
optional (Python `dict.get`). -/
structure RegistryRow where
  locatadd_nm : Option String := none
  locallow_nm : Option String := none
  region_cd : Option String := none
deriving DecidableEq

/-- `f"{r.get('locatadd_nm','')} {r.get('locallow_nm','')}"`. -/
def rowHay (r : RegistryRow) : List Char :=
  (r.locatadd_nm.getD "").data ++ ' ' :: (r.locallow_nm.getD "").data

/-- Tokenizer for `re.split(r"\s+", query)` with empty tokens dropped:
accumulate the current (reversed) token, emit at whitespace. -/
def tokAux : List Char → List Char → List (List Char)
  | [], cur => if cur = [] then [] else [cur.reverse]
  | c :: rest, cur =>
    if isWS c then
      if cur = [] then tokAux rest [] else cur.reverse :: tokAux rest []
    else tokAux rest (c :: cur)

/-- The nonempty whitespace-delimited tokens of a character list. -/
def wsTokens (l : List Char) : List (List Char) := tokAux l []

/-- Lexicographic code-point order on character lists: the order Python
uses to compare strings. -/
def lexLt : List Char → List Char → Bool
  | [], [] => false
  | [], _ :: _ => true
  | _ :: _, [] => false
  | a :: as, b :: bs =>
    if a.toNat < b.toNat then true
    else if b.toNat < a.toNat then false
    else lexLt as bs

/-- Python's `<` on strings: lexicographic by code point. -/
def strLt (s t : String) : Bool := lexLt s.data t.data

/-- Sorted insertion dropping duplicates (ascending `strLt` order). -/
def insertDedup (s : String) : List String → List String
  | [] => [s]
  | t :: rest =>
    if strLt s t then s :: t :: rest
    else if s = t then t :: rest
    else t :: insertDedup s rest

/-- Python `sorted(set(l))` for strings. -/
def sortDedup (l : List String) : List String := l.foldr insertDedup []

/-- Row loop of `_filter_codes` in `src/region.py` lines 73-82: keep a
row's region code when every token occurs in the row's address text,
the code is truthy, and its digit-stripped form has exactly 10 digits. -/
def collectCodes : List RegistryRow → List (List Char) → List String
  | [], _ => []
  | r :: rest, toks =>
    if toks.all (fun t => substrB t (rowHay r)) then
      match r.region_cd with
      | some rc =>
        if rc ≠ "" then
          if (stripDigits rc).length = 10 then
            stripDigits rc :: collectCodes rest toks
          else collectCodes rest toks
        else collectCodes rest toks
      | none => collectCodes rest toks
    else collectCodes rest toks

/-- `_filter_codes` from `src/region.py` lines 71-83. -/
def _filter_codes (rows : List RegistryRow) (query : String) : List String :=
  sortDedup (collectCodes rows (wsTokens (stripWS query.data)))

/-- Row loop of `_filter_codes` in `src/region/region.py` lines 70-76:
keeps any truthy region code verbatim (no digit stripping, no length
check). -/
def collectCodes2 : List RegistryRow → List (List Char) → List String
  | [], _ => []
  | r :: rest, toks =>
    if toks.all (fun t => substrB t (rowHay r)) then
      match r.region_cd with
      | some rc =>
        if rc ≠ "" then rc :: collectCodes2 rest toks
        else collectCodes2 rest toks
      | none => collectCodes2 rest toks
    else collectCodes2 rest toks

/-- `_filter_codes` from `src/region/region.py` lines 68-77. -/
def filter_codes_v2 (rows : List RegistryRow) (query : String) : List String :=
  sortDedup (collectCodes2 rows (wsTokens (stripWS query.data)))

example :
    _filter_codes
      [{ region_cd := some "1168010300", locatadd_nm := some "서울특별시 강남구 개포동" },
       { region_cd := some "4159010100", locatadd_nm := some "경기도 용인시 개포동" }]
      "개포동" = ["1168010300", "4159010100"] := by decide

example :
    _filter_codes
      [{ region_cd := some "1168010300", locatadd_nm := some "서울특별시 강남구 개포동" },
       { region_cd := some "4159010100", locatadd_nm := some "경기도 용인시 개포동" }]
      "강남구 개포동" = ["1168010300"] := by decide

example :
    _filter_codes [{ region_cd := some "12345" }] "" = [] := by decide

example :
    filter_codes_v2 [{ region_cd := some "12345" }] "" = ["12345"] := by decide

/-! ### Order lemmas for the sorted deduplicated output -/

theorem char_toNat_inj {a b : Char} (h : a.toNat = b.toNat) : a = b := by
  apply Char.ext
  have hb : a.val.toBitVec = b.val.toBitVec := BitVec.eq_of_toNat_eq h
  cases ha : a.val
  cases hval : b.val
  simp_all

theorem lexLt_cons_iff (a b : Char) (as bs : List Char) :
    lexLt (a :: as) (b :: bs) = true ↔
      a.toNat < b.toNat ∨ (a.toNat = b.toNat ∧ lexLt as bs = true) := by
  rw [lexLt]
  split_ifs with h1 h2
  · simp [h1]
  · constructor
    · intro hh
      exact absurd hh (by simp)
    · rintro (hh | ⟨hh, _⟩) <;> omega
  · have heq : a.toNat = b.toNat := by omega
    simp [h1, heq]

theorem lexLt_trichotomy : ∀ a b : List Char,
    lexLt a b = true ∨ a = b ∨ lexLt b a = true := by
  intro a
  induction a with
  | nil =>
    intro b
    cases b with
    | nil => exact Or.inr (Or.inl rfl)
    | cons b0 bs => exact Or.inl rfl
  | cons a0 as ih =>
    intro b
    cases b with
    | nil => exact Or.inr (Or.inr rfl)
    | cons b0 bs =>
      rcases Nat.lt_trichotomy a0.toNat b0.toNat with h | h | h
      · exact Or.inl ((lexLt_cons_iff _ _ _ _).mpr (Or.inl h))
      · have he : a0 = b0 := char_toNat_inj h
        subst he
        rcases ih bs with h1 | h1 | h1
        · exact Or.inl ((lexLt_cons_iff _ _ _ _).mpr (Or.inr ⟨rfl, h1⟩))
        · subst h1
          exact Or.inr (Or.inl rfl)
        · exact Or.inr (Or.inr ((lexLt_cons_iff _ _ _ _).mpr (Or.inr ⟨rfl, h1⟩)))
      · exact Or.inr (Or.inr ((lexLt_cons_iff _ _ _ _).mpr (Or.inl h)))

theorem lexLt_trans : ∀ a b c : List Char,
    lexLt a b = true → lexLt b c = true → lexLt a c = true := by
  intro a
  induction a with
  | nil =>
    intro b c hab hbc
    cases b with
    | nil => exact absurd hab (by simp [lexLt])
    | cons b0 bs =>
      cases c with
      | nil => exact absurd hbc (by simp [lexLt])
      | cons c0 cs => rfl
  | cons a0 as ih =>
    intro b c hab hbc
    cases b with
    | nil => exact absurd hab (by simp [lexLt])
    | cons b0 bs =>
      cases c with
      | nil => exact absurd hbc (by simp [lexLt])
      | cons c0 cs =>
        rw [lexLt_cons_iff] at hab hbc ⊢
        rcases hab with h | ⟨h, hab'⟩ <;> rcases hbc with h2 | ⟨h2, hbc'⟩
        · exact Or.inl (by omega)
        · exact Or.inl (by omega)
        · exact Or.inl (by omega)
        · exact Or.inr ⟨by omega, ih bs cs hab' hbc'⟩

theorem lexLt_irrefl : ∀ a : List Char, lexLt a a = false := by
  intro a
  induction a with
  | nil => rfl
  | cons a0 as ih =>
    rw [lexLt]
    simp [Nat.lt_irrefl]
    exact ih

theorem strLt_trichotomy (s t : String) :
    strLt s t = true ∨ s = t ∨ strLt t s = true := by
  rcases lexLt_trichotomy s.data t.data with h | h | h
  · exact Or.inl h
  · refine Or.inr (Or.inl ?_)
    cases s
    cases t
    have hd := h
    simp only [String.data] at hd
    rw [hd]
  · exact Or.inr (Or.inr h)

theorem strLt_trans {s t u : String} (h1 : strLt s t = true)
    (h2 : strLt t u = true) : strLt s u = true :=
  lexLt_trans s.data t.data u.data h1 h2

theorem strLt_irrefl (s : String) : strLt s s = false :=
  lexLt_irrefl s.data

theorem strLt_ne {s t : String} (h : strLt s t = true) : s ≠ t := by
  intro he
  subst he
  rw [strLt_irrefl] at h
  exact absurd h (by simp)

theorem insertDedup_mem (s a : String) : ∀ l : List String,
    a ∈ insertDedup s l ↔ a = s ∨ a ∈ l := by
  intro l
  induction l with
  | nil => simp [insertDedup]
  | cons t rest ih =>
    rw [insertDedup]
    split_ifs with h1 h2
    · simp
    · subst h2
      simp
    · simp [ih]
      tauto

theorem insertDedup_pairwise (s : String) :
    ∀ l : List String, l.Pairwise (fun a b => strLt a b = true) →
      (insertDedup s l).Pairwise (fun a b => strLt a b = true) := by
  intro l
  induction l with
  | nil =>
    intro _
    simp [insertDedup]
  | cons t rest ih =>
    intro hp
    rw [List.pairwise_cons] at hp
    obtain ⟨ht, hrest⟩ := hp
    rw [insertDedup]
    split_ifs with h1 h2
    · rw [List.pairwise_cons]
      constructor
      · intro b hb
        rcases List.mem_cons.mp hb with rfl | hb
        · exact h1
        · exact strLt_trans h1 (ht b hb)
      · rw [List.pairwise_cons]
        exact ⟨ht, hrest⟩
    · rw [List.pairwise_cons]
      exact ⟨ht, hrest⟩
    · have hts : strLt t s = true := by
        rcases strLt_trichotomy s t with h | h | h
        · exact absurd h h1
        · exact absurd h h2
        · exact h
      rw [List.pairwise_cons]
      constructor
      · intro b hb
        rcases (insertDedup_mem s b rest).mp hb with rfl | hb
        · exact hts
        · exact ht b hb
      · exact ih hrest

theorem sortDedup_mem (a : String) : ∀ l : List String,
    a ∈ sortDedup l ↔ a ∈ l := by
  intro l
  induction l with
  | nil => simp [sortDedup]
  | cons t rest ih =>
    show a ∈ insertDedup t (sortDedup rest) ↔ _
    rw [insertDedup_mem, ih]
    simp

theorem sortDedup_pairwise : ∀ l : List String,
    (sortDedup l).Pairwise (fun a b => strLt a b = true) := by
  intro l
  induction l with
  | nil => simp [sortDedup]
  | cons t rest ih => exact insertDedup_pairwise t _ ih

theorem sortDedup_nodup (l : List String) : (sortDedup l).Nodup :=
  List.Pairwise.imp (fun h => strLt_ne h) (sortDedup_pairwise l)

theorem sortDedup_eq_self : ∀ l : List String,
    l.Pairwise (fun a b => strLt a b = true) → sortDedup l = l := by
  intro l
  induction l with
  | nil => intro _; rfl
  | cons t rest ih =>
    intro hp
    rw [List.pairwise_cons] at hp
    obtain ⟨ht, hrest⟩ := hp
    show insertDedup t (sortDedup rest) = t :: rest
    rw [ih hrest]
    cases rest with
    | nil => rfl
    | cons u rest2 =>
      rw [insertDedup, if_pos (ht u (by simp))]

theorem collectCodes_cons_some {r : RegistryRow} (rest : List RegistryRow)
    (toks : List (List Char)) {rc : String} (hrc : r.region_cd = some rc) :
    collectCodes (r :: rest) toks =
      if toks.all (fun t => substrB t (rowHay r)) then
        if rc ≠ "" then
          if (stripDigits rc).length = 10 then
            stripDigits rc :: collectCodes rest toks
          else collectCodes rest toks
        else collectCodes rest toks
      else collectCodes rest toks := by
  rw [collectCodes, hrc]

theorem collectCodes_cons_none {r : RegistryRow} (rest : List RegistryRow)
    (toks : List (List Char)) (hrc : r.region_cd = none) :
    collectCodes (r :: rest) toks = collectCodes rest toks := by
  rw [collectCodes, hrc]
  simp only [ite_self]

theorem collectCodes_mem (toks : List (List Char)) :
    ∀ (rows : List RegistryRow) (c : String),
      c ∈ collectCodes rows toks ↔
        ∃ r ∈ rows, toks.all (fun t => substrB t (rowHay r)) = true ∧
          ∃ rc, r.region_cd = some rc ∧ stripDigits rc = c ∧
            (stripDigits rc).length = 10 := by
  intro rows
  induction rows with
  | nil => simp [collectCodes]
  | cons r rest ih =>
    intro c
    have hsplit : ∀ P : Prop,
        ((∃ r' ∈ r :: rest, toks.all (fun t => substrB t (rowHay r')) = true ∧
          ∃ rc, r'.region_cd = some rc ∧ stripDigits rc = c ∧
            (stripDigits rc).length = 10) ↔
        ((toks.all (fun t => substrB t (rowHay r)) = true ∧
          ∃ rc, r.region_cd = some rc ∧ stripDigits rc = c ∧
            (stripDigits rc).length = 10) ∨
          ∃ r' ∈ rest, toks.all (fun t => substrB t (rowHay r')) = true ∧
            ∃ rc, r'.region_cd = some rc ∧ stripDigits rc = c ∧
              (stripDigits rc).length = 10)) := by
      intro _
      constructor
      · rintro ⟨r', hr', hrest⟩
        rcases List.mem_cons.mp hr' with rfl | hr'
        · exact Or.inl hrest
        · exact Or.inr ⟨r', hr', hrest⟩
      · rintro (h | ⟨r', hr', hrest⟩)
        · exact ⟨r, by simp, h⟩
        · exact ⟨r', by simp [hr'], hrest⟩
    rw [hsplit True]
    rcases hrc : r.region_cd with _ | rc
    · rw [collectCodes_cons_none rest toks hrc, ih]
      constructor
      · exact Or.inr
      · rintro (⟨_, rc, hrc', _⟩ | h)
        · exact absurd hrc' (by simp)
        · exact h
    · by_cases hm : toks.all (fun t => substrB t (rowHay r)) = true
      · rw [collectCodes_cons_some rest toks hrc, if_pos hm]
        by_cases hne : rc ≠ ""
        · rw [if_pos hne]
          by_cases hlen : (stripDigits rc).length = 10
          · rw [if_pos hlen]
            constructor
            · intro hc
              rcases List.mem_cons.mp hc with rfl | hc
              · exact Or.inl ⟨hm, rc, rfl, rfl, hlen⟩
              · exact Or.inr ((ih c).mp hc)
            · rintro (⟨_, rc', hrc', heq, hlen'⟩ | h)
              · have : rc = rc' := by simpa using hrc'
                subst this
                subst heq
                simp
              · exact List.mem_cons_of_mem _ ((ih c).mpr h)
          · rw [if_neg hlen, ih]
            constructor
            · exact Or.inr
            · rintro (⟨_, rc', hrc', heq, hlen'⟩ | h)
              · have : rc = rc' := by simpa using hrc'
                subst this
                exact absurd hlen' hlen
              · exact h
        · rw [if_neg hne, ih]
          push_neg at hne
          subst hne
          constructor
          · exact Or.inr
          · rintro (⟨_, rc', hrc', heq, hlen'⟩ | h)
            · have : rc' = "" := by simpa using hrc'.symm
              subst this
              exact absurd hlen' (by simp [stripDigits, stripDigitsL])
            · exact h
      · rw [collectCodes_cons_some rest toks hrc, if_neg hm, ih]
        constructor
        · exact Or.inr
        · rintro (⟨hm', _⟩ | h)
          · exact absurd hm' hm
          · exact h

/-- C2: `_filter_codes` returns a strictly ascending (by code-point
lexicographic order), duplicate-free list, and a code is in the result
exactly when some row matches every whitespace-delimited query token as
a substring of its combined address text and carries that code as its
digit-stripped, exactly-10-digit region code. -/
theorem filter_codes_spec (rows : List RegistryRow) (q : String) :
    (_filter_codes rows q).Pairwise (fun a b => strLt a b = true) ∧
    (_filter_codes rows q).Nodup ∧
    ∀ c : String, c ∈ _filter_codes rows q ↔
      ∃ r ∈ rows,
        (∀ t ∈ wsTokens (stripWS q.data), Substr t (rowHay r)) ∧
        ∃ rc, r.region_cd = some rc ∧ stripDigits rc = c ∧ c.length = 10 := by
  refine ⟨sortDedup_pairwise _, sortDedup_nodup _, ?_⟩
  intro c
  show c ∈ sortDedup (collectCodes rows (wsTokens (stripWS q.data))) ↔ _
  rw [sortDedup_mem, collectCodes_mem]
  constructor
  · rintro ⟨r, hr, hall, rc, hrc, heq, hlen⟩
    refine ⟨r, hr, ?_, rc, hrc, heq, ?_⟩
    · intro t ht
      exact (substrB_iff t (rowHay r)).mp (List.all_eq_true.mp hall t ht)
    · rw [← heq]
      exact hlen
  · rintro ⟨r, hr, hall, rc, hrc, heq, hlen⟩
    refine ⟨r, hr, ?_, rc, hrc, heq, ?_⟩
    · rw [List.all_eq_true]
      intro t ht
      exact (substrB_iff t (rowHay r)).mpr (hall t ht)
    · rw [heq]
      exact hlen

theorem tokAux_nil_of_ws : ∀ l : List Char,
    (∀ c ∈ l, isWS c = true) → tokAux l [] = [] := by
  intro l
  induction l with
  | nil => intro _; rfl
  | cons c rest ih =>
    intro h
    rw [tokAux, if_pos (h c (by simp)), if_pos rfl]
    exact ih (fun d hd => h d (by simp [hd]))

theorem collectCodes_nil_toks : ∀ rows : List RegistryRow,
    collectCodes rows [] = rows.filterMap (fun r =>
      match r.region_cd with
      | some rc =>
        if (stripDigits rc).length = 10 then some (stripDigits rc) else none
      | none => none) := by
  intro rows
  induction rows with
  | nil => rfl
  | cons r rest ih =>
    rcases hrc : r.region_cd with _ | rc
    · rw [collectCodes_cons_none rest [] hrc, ih]
      simp [List.filterMap_cons, hrc]
    · rw [collectCodes_cons_some rest [] hrc,
        if_pos (show ([].all fun t => substrB t (rowHay r)) = true from rfl)]
      by_cases hne : rc ≠ ""
      · by_cases hlen : (stripDigits rc).length = 10
        · rw [if_pos hne, if_pos hlen, ih]
          simp [List.filterMap_cons, hrc, hlen]
        · rw [if_pos hne, if_neg hlen, ih]
          simp [List.filterMap_cons, hrc, hlen]
      · push_neg at hne
        subst hne
        rw [if_neg (by simp), ih]
        simp [List.filterMap_cons, hrc, stripDigits, stripDigitsL]

/-- C10: an empty or all-whitespace query yields no tokens, so every
row matches and `_filter_codes` returns the sorted deduplicated list of
all valid 10-digit codes present in the rows. -/
theorem filter_codes_ws_query (rows : List RegistryRow) (q : String)
    (hq : ∀ c ∈ q.data, isWS c = true) :
    _filter_codes rows q = sortDedup (rows.filterMap (fun r =>
      match r.region_cd with
      | some rc =>
        if (stripDigits rc).length = 10 then some (stripDigits rc) else none
      | none => none)) := by
  have htoks : wsTokens (stripWS q.data) = [] :=
    tokAux_nil_of_ws _ (fun c hc => hq c (stripWS_subset _ c hc))
  show sortDedup (collectCodes rows (wsTokens (stripWS q.data))) = _
  rw [htoks, collectCodes_nil_toks]

/-- C10 witness: a whitespace-only query returns the rows' valid codes
rather than nothing. -/
theorem filter_codes_ws_query_witness :
    _filter_codes [{ locatadd_nm := some "서울", region_cd := some "1168010300" }]
        " " =
      sortDedup
        (([{ locatadd_nm := some "서울", region_cd := some "1168010300" }] :
            List RegistryRow).filterMap (fun r =>
          match r.region_cd with
          | some rc =>
            if (stripDigits rc).length = 10 then some (stripDigits rc) else none
          | none => none)) :=
  filter_codes_ws_query _ " " (by decide)

example :
    _filter_codes [{ locatadd_nm := some "서울", region_cd := some "1168010300" }]
      " " = ["1168010300"] := by decide

theorem collectCodes2_cons_some {r : RegistryRow} (rest : List RegistryRow)
    (toks : List (List Char)) {rc : String} (hrc : r.region_cd = some rc) :
    collectCodes2 (r :: rest) toks =
      if toks.all (fun t => substrB t (rowHay r)) then
        if rc ≠ "" then rc :: collectCodes2 rest toks
        else collectCodes2 rest toks
      else collectCodes2 rest toks := by
  rw [collectCodes2, hrc]

theorem collectCodes2_cons_none {r : RegistryRow} (rest : List RegistryRow)
    (toks : List (List Char)) (hrc : r.region_cd = none) :
    collectCodes2 (r :: rest) toks = collectCodes2 rest toks := by
  rw [collectCodes2, hrc]
  simp only [ite_self]

theorem stripDigits_eq_self {rc : String}
    (h : rc.data.all Char.isDigit = true) : stripDigits rc = rc := by
  cases rc with
  | mk d =>
    show String.mk (stripDigitsL d) = String.mk d
    congr 1
    rw [stripDigitsL]
    exact List.filter_eq_self.mpr (List.all_eq_true.mp h)

theorem collect_eq_of_clean (toks : List (List Char)) :
    ∀ rows : List RegistryRow,
      (∀ r ∈ rows, ∀ rc : String, r.region_cd = some rc →
        rc = "" ∨ (rc.data.all Char.isDigit = true ∧ rc.length = 10)) →
      collectCodes rows toks = collectCodes2 rows toks := by
  intro rows
  induction rows with
  | nil => intro _; rfl
  | cons r rest ih =>
    intro h
    have hrest : ∀ r' ∈ rest, ∀ rc : String, r'.region_cd = some rc →
        rc = "" ∨ (rc.data.all Char.isDigit = true ∧ rc.length = 10) :=
      fun r' hr' => h r' (by simp [hr'])
    rcases hrc : r.region_cd with _ | rc
    · rw [collectCodes_cons_none rest toks hrc,
        collectCodes2_cons_none rest toks hrc, ih hrest]
    · rcases h r (by simp) rc hrc with rfl | ⟨hdig, hlen⟩
      · rw [collectCodes_cons_some rest toks hrc,
          collectCodes2_cons_some rest toks hrc, ih hrest]
        simp
      · have hslen : (stripDigits rc).length = 10 := by
          rw [stripDigits_eq_self hdig]
          exact hlen
        rw [collectCodes_cons_some rest toks hrc,
          collectCodes2_cons_some rest toks hrc, ih hrest,
          stripDigits_eq_self hdig, if_pos hlen]

/-- C9 counterexample: on a row whose region code is `"12345"` (five
digits), the `src/region.py` filter validates and drops it while the
`src/region/region.py` filter keeps it verbatim, so the two
implementations do not compute the same function. -/
theorem filter_codes_c9_counterexample :
    _filter_codes [{ region_cd := some "12345" }] "" = [] ∧
    filter_codes_v2 [{ region_cd := some "12345" }] "" = ["12345"] ∧
    _filter_codes [{ region_cd := some "12345" }] "" ≠
      filter_codes_v2 [{ region_cd := some "12345" }] "" :=
  ⟨by decide, by decide, by decide⟩

/-- C9 (amended): the two Code Filter implementations agree on every
`(rows, query)` in which each present region code is either falsy
(empty) or already a clean string of exactly 10 digits — i.e. whenever
the extra validation of `src/region.py` (digit stripping and the
10-digit length check) cannot fire. -/
theorem filter_codes_agree (rows : List RegistryRow) (q : String)
    (h : ∀ r ∈ rows, ∀ rc : String, r.region_cd = some rc →
      rc = "" ∨ (rc.data.all Char.isDigit = true ∧ rc.length = 10)) :
    _filter_codes rows q = filter_codes_v2 rows q := by
  show sortDedup (collectCodes rows (wsTokens (stripWS q.data))) =
    sortDedup (collectCodes2 rows (wsTokens (stripWS q.data)))
  rw [collect_eq_of_clean _ rows h]

/-- C9 witness: on a clean 10-digit code the two filters agree. -/
theorem filter_codes_agree_witness :
    _filter_codes [{ region_cd := some "1168010300" }] "x" =
      filter_codes_v2 [{ region_cd := some "1168010300" }] "x" :=
  filter_codes_agree _ "x" (by
    intro r hr rc hrc
    simp only [List.mem_singleton] at hr
    subst hr
    simp only [Option.some.injEq] at hrc
    subst hrc
    exact Or.inr ⟨by decide, by decide⟩)

/-! ### Registry response envelope (`_rows_from_json`) -/

/-- JSON values (`json.loads` output shapes). -/
inductive JVal where
  | jnull
  | jbool : Bool → JVal
  | jnum : Int → JVal
  | jstr : String → JVal
  | jarr : List JVal → JVal
  | jobj : List (String × JVal) → JVal

/-- `isinstance(x, dict)` projection. -/
def asObj : JVal → Option (List (String × JVal))
  | .jobj o => some o
  | _ => none

/-- Python `dict.get` over an association list (keys unique). -/
def jlookup (k : String) : List (String × JVal) → Option JVal
  | [] => none
  | (k2, v) :: rest => if k2 = k then some v else jlookup k rest

/-- Loop body of `_rows_from_json` for one block `b`: extend the
accumulated rows with the block's dict-shaped `row` entries; overwrite
the accumulated head with `b["head"][0]` when that is a dict in a
non-empty list. -/
def rowsHeadStep
    (acc : List (List (String × JVal)) × List (String × JVal)) (b : JVal) :
    List (List (String × JVal)) × List (String × JVal) :=
  match b with
  | .jobj bkvs =>
    let acc1 :=
      match jlookup "row" bkvs with
      | some (.jarr rs) => (acc.1 ++ rs.filterMap asObj, acc.2)
      | _ => acc
    match jlookup "head" bkvs with
    | some (.jarr (h :: _)) =>
      match h with
      | .jobj o => (acc1.1, o)
      | _ => acc1
    | _ => acc1
  | _ => acc

/-- `_rows_from_json` from `src/region.py` lines 31-43. -/
def _rows_from_json (data : JVal) :
    List (List (String × JVal)) × List (String × JVal) :=
  match data with
  | .jobj kvs =>
    match jlookup "StanReginCd" kvs with
    | some (.jarr blocks) => blocks.foldl rowsHeadStep ([], [])
    | _ => ([], [])
  | _ => ([], [])

/-- The list of blocks of the envelope (empty when absent/mis-shaped). -/
def blocksOf (data : JVal) : List JVal :=
  match data with
  | .jobj kvs =>
    match jlookup "StanReginCd" kvs with
    | some (.jarr blocks) => blocks
    | _ => []
  | _ => []

/-- The dict-shaped rows contributed by one block. -/
def blockRows (b : JVal) : List (List (String × JVal)) :=
  match b with
  | .jobj bkvs =>
    match jlookup "row" bkvs with
    | some (.jarr rs) => rs.filterMap asObj
    | _ => []
  | _ => []

/-- The header entry a block carries: the first element of a non-empty
`head` list, when that element is a dict. -/
def blockHead (b : JVal) : Option (List (String × JVal)) :=
  match b with
  | .jobj bkvs =>
    match jlookup "head" bkvs with
    | some (.jarr (h :: _)) =>
      match h with
      | .jobj o => some o
      | _ => none
    | _ => none
  | _ => none

theorem rowsHeadStep_eq
    (acc : List (List (String × JVal)) × List (String × JVal)) (b : JVal) :
    rowsHeadStep acc b = (acc.1 ++ blockRows b, (blockHead b).getD acc.2) := by
  rcases b with _ | _ | _ | _ | arr | bkvs
  · simp [rowsHeadStep, blockRows, blockHead]
  · simp [rowsHeadStep, blockRows, blockHead]
  · simp [rowsHeadStep, blockRows, blockHead]
  · simp [rowsHeadStep, blockRows, blockHead]
  · simp [rowsHeadStep, blockRows, blockHead]
  · rcases hrow : jlookup "row" bkvs with _ | v <;>
      rcases hhead : jlookup "head" bkvs with _ | w
    all_goals try rcases v with _ | _ | _ | _ | varr | vobj
    all_goals try rcases w with _ | _ | _ | _ | warr | wobj
    all_goals try rcases warr with _ | ⟨h, tl⟩
    all_goals try rcases h with _ | _ | _ | _ | harr | hobj
    all_goals simp [rowsHeadStep, blockRows, blockHead, hrow, hhead]

theorem getLastD_cons {α : Type} (h d : α) (l : List α) :
    ((h :: l).getLast?).getD d = (l.getLast?).getD h := by
  cases l with
  | nil => rfl
  | cons x xs =>
    rw [List.getLast?_cons_cons]
    rcases hx : (x :: xs).getLast? with _ | y
    · simp at hx
    · rfl

theorem foldl_rowsHeadStep : ∀ (blocks : List JVal)
    (acc : List (List (String × JVal)) × List (String × JVal)),
    blocks.foldl rowsHeadStep acc =
      (acc.1 ++ (blocks.map blockRows).flatten,
       ((blocks.filterMap blockHead).getLast?).getD acc.2) := by
  intro blocks
  induction blocks with
  | nil => intro acc; simp
  | cons b rest ih =>
    intro acc
    rw [List.foldl_cons, ih, rowsHeadStep_eq]
    rcases hb : blockHead b with _ | hd
    · rw [List.filterMap_cons_none hb]
      simp [List.append_assoc, hb]
    · rw [List.filterMap_cons_some hb]
      simp [List.append_assoc, hb, getLastD_cons]

/-- C8 (amended): `_rows_from_json` returns the dict-shaped rows of all
blocks concatenated in block order, and the metadata record is the
*last* block's qualifying (non-empty, dict-first) header entry — a
later block's header overwrites an earlier one. -/
theorem rows_from_json_spec (data : JVal) :
    (_rows_from_json data).1 = ((blocksOf data).map blockRows).flatten ∧
    (_rows_from_json data).2 =
      (((blocksOf data).filterMap blockHead).getLast?).getD [] := by
  rcases data with _ | _ | _ | _ | arr | kvs
  · exact ⟨rfl, rfl⟩
  · exact ⟨rfl, rfl⟩
  · exact ⟨rfl, rfl⟩
  · exact ⟨rfl, rfl⟩
  · exact ⟨rfl, rfl⟩
  · rcases hb : jlookup "StanReginCd" kvs with _ | v
    · constructor <;> simp [_rows_from_json, blocksOf, hb]
    · rcases v with _ | _ | _ | _ | blocks | vobj <;>
        constructor <;>
          simp [_rows_from_json, blocksOf, hb, foldl_rowsHeadStep]

/-- C8 counterexample: with two blocks each carrying a non-empty header,
the returned metadata is the second block's header, not the first's, so
"first non-empty header wins" is false on the code (the rows are still
concatenated in block order). -/
theorem rows_from_json_c8_counterexample :
    (_rows_from_json (JVal.jobj [("StanReginCd", JVal.jarr
      [JVal.jobj [("head", JVal.jarr [JVal.jobj [("totalCount", JVal.jnum 1)]])],
       JVal.jobj [("head", JVal.jarr [JVal.jobj [("totalCount", JVal.jnum 2)]]),
         ("row", JVal.jarr [JVal.jobj [("region_cd", JVal.jstr "1168010300")]])]])])).2
      = [("totalCount", JVal.jnum 2)] ∧
    [("totalCount", JVal.jnum 2)] ≠ [("totalCount", JVal.jnum 1)] ∧
    blockHead (JVal.jobj [("head", JVal.jarr
        [JVal.jobj [("totalCount", JVal.jnum 1)]])])
      = some [("totalCount", JVal.jnum 1)] := by
  refine ⟨rfl, ?_, rfl⟩
  intro hcontra
  simp at hcontra

/-! ### Region resolver (`fetch_region_cd`, `src/region.py` lines 85-110) -/

/-- One record of the `scanned` debug list. -/
structure ScanRec where
  prov : String
  count : Nat
  scheme : String

/-- The debug mapping built by `fetch_region_cd`, modelled as a
structure with one field per key the source writes (the source's key
sets — `query`/`phase`/`scheme`/head keys/`direct_error`/`scanned`/
`scan_errors` — are disjoint). -/
structure Dbg where
  query : String
  phase : Option String := none
  scheme : Option String := none
  head : Option (List (String × JVal)) := none
  direct_error : Option String := none
  scanned : List ScanRec := []
  scan_errors : List (String × String) := []

/-- The fixed nationwide-scan province list (`src/region.py` lines 10-14). -/
def PROVINCES : List String :=
  ["서울특별시", "부산광역시", "대구광역시", "인천광역시", "광주광역시", "대전광역시",
   "울산광역시", "세종특별자치시", "경기도", "강원특별자치도", "강원도", "충청북도",
   "충청남도", "전북특별자치도", "전라북도", "전라남도", "경상북도", "경상남도",
   "제주특별자치도"]

/-- The fetch dependency, modelled as a pure function from the query
string and page number to either rows-plus-header-plus-scheme or a
raised failure (`_fetch_json_with_fallback` is network code outside
this embedding's scope). -/
abbrev FetchFun :=
  String → Nat →
    Except String ((List RegistryRow × List (String × JVal)) × String)

/-- Scan-phase loop of `fetch_region_cd` (lines 98-109): fetch each
province in order, record it (or its error) in the debug info, extend
`found` with the original query's filtered codes, and return at the
first non-empty `found`. -/
def scanLoop (fetch : FetchFun) (q : String) :
    List String → List String → Dbg → List String × Dbg
  | [], found, dbg => (sortDedup found, dbg)
  | prov :: rest, found, dbg =>
    match fetch prov 1 with
    | .ok ((rows_json, _head), scheme) =>
      let dbg2 := { dbg with
        scanned := dbg.scanned ++ [⟨prov, rows_json.length, scheme⟩] }
      let found2 :=
        if rows_json ≠ [] then found ++ _filter_codes rows_json q else found
      if found2 ≠ [] then (sortDedup found2, dbg2)
      else scanLoop fetch q rest found2 dbg2
    | .error e =>
      scanLoop fetch q rest found
        { dbg with scan_errors := dbg.scan_errors ++ [(prov, e)] }

/-- Lines 97 and 110: run the nationwide scan if enabled, else return
no codes. -/
def scanPart (fetch : FetchFun) (q : String) (scan_all : Bool) (dbg : Dbg) :
    List String × Dbg :=
  if scan_all then scanLoop fetch q PROVINCES [] dbg else ([], dbg)

/-- `fetch_region_cd` from `src/region.py` lines 85-110, with the fetch
dependency abstracted as `fetch`. -/
def fetch_region_cd (fetch : FetchFun) (q : String) (page : Nat)
    (scan_all : Bool) : List String × Dbg :=
  let dbg0 : Dbg := { query := q }
  match fetch q page with
  | .ok ((rows_json, head), scheme) =>
    let dbg1 := { dbg0 with
      phase := some "direct", scheme := some scheme, head := some head }
    if rows_json ≠ [] then
      if _filter_codes rows_json q ≠ [] then (_filter_codes rows_json q, dbg1)
      else scanPart fetch q scan_all dbg1
    else scanPart fetch q scan_all dbg1
  | .error e => scanPart fetch q scan_all { dbg0 with direct_error := some e }

theorem scanLoop_cons_ok {fetch : FetchFun} {q prov : String}
    (rest : List String) (found : List String) (dbg : Dbg)
    {rows : List RegistryRow} {hd : List (String × JVal)} {sch : String}
    (hf : fetch prov 1 = .ok ((rows, hd), sch)) :
    scanLoop fetch q (prov :: rest) found dbg =
      (let dbg2 := { dbg with
        scanned := dbg.scanned ++ [⟨prov, rows.length, sch⟩] }
       let found2 :=
         if rows ≠ [] then found ++ _filter_codes rows q else found
       if found2 ≠ [] then (sortDedup found2, dbg2)
       else scanLoop fetch q rest found2 dbg2) := by
  rw [scanLoop, hf]

theorem scanLoop_cons_err {fetch : FetchFun} {q prov : String}
    (rest : List String) (found : List String) (dbg : Dbg) {e : String}
    (hf : fetch prov 1 = .error e) :
    scanLoop fetch q (prov :: rest) found dbg =
      scanLoop fetch q rest found
        { dbg with scan_errors := dbg.scan_errors ++ [(prov, e)] } := by
  rw [scanLoop, hf]

theorem sortDedup_filter_codes (rows : List RegistryRow) (q : String) :
    sortDedup (_filter_codes rows q) = _filter_codes rows q :=
  sortDedup_eq_self _ (sortDedup_pairwise _)

theorem scanLoop_first_hit (fetch : FetchFun) (q : String) :
    ∀ (pre : List String) (P : String) (post : List String) (dbg : Dbg)
      (rowsP : List RegistryRow) (hdP : List (String × JVal)) (schP : String),
      (∀ p ∈ pre, ∃ rows hd sch,
        fetch p 1 = .ok ((rows, hd), sch) ∧ _filter_codes rows q = []) →
      fetch P 1 = .ok ((rowsP, hdP), schP) →
      _filter_codes rowsP q ≠ [] →
      (scanLoop fetch q (pre ++ P :: post) [] dbg).1 = _filter_codes rowsP q ∧
      ((scanLoop fetch q (pre ++ P :: post) [] dbg).2).scanned.map ScanRec.prov
        = dbg.scanned.map ScanRec.prov ++ pre ++ [P] ∧
      ((scanLoop fetch q (pre ++ P :: post) [] dbg).2).direct_error
        = dbg.direct_error := by
  intro pre
  induction pre with
  | nil =>
    intro P post dbg rowsP hdP schP _ hP hne
    have hrne : rowsP ≠ [] := by
      intro h0
      subst h0
      exact hne rfl
    rw [List.nil_append, scanLoop_cons_ok post [] dbg hP]
    simp [hrne, hne, sortDedup_filter_codes]
  | cons p pre2 ih =>
    intro P post dbg rowsP hdP schP hpre hP hne
    obtain ⟨rows, hd, sch, hf, hfe⟩ := hpre p (by simp)
    rw [List.cons_append, scanLoop_cons_ok (pre2 ++ P :: post) [] dbg hf]
    have hfound2 : (if rows ≠ [] then
        ([] : List String) ++ _filter_codes rows q else []) = [] := by
      rw [hfe]
      simp
    rw [hfound2]
    simp only [ne_eq, not_true_eq_false, if_false, ite_self]
    obtain ⟨h1, h2, h3⟩ := ih P post
      { dbg with scanned := dbg.scanned ++ [⟨p, rows.length, sch⟩] }
      rowsP hdP schP (fun p' hp' => hpre p' (by simp [hp'])) hP hne
    refine ⟨h1, ?_, h3⟩
    rw [h2]
    simp

theorem fetch_region_cd_direct_ok {fetch : FetchFun} {q : String}
    {page : Nat} {rows0 : List RegistryRow} {hd0 : List (String × JVal)}
    {sch0 : String} (scan_all : Bool)
    (hdirect : fetch q page = .ok ((rows0, hd0), sch0)) :
    fetch_region_cd fetch q page scan_all =
      (let dbg1 : Dbg :=
         { query := q, phase := some "direct", scheme := some sch0,
           head := some hd0 }
       if rows0 ≠ [] then
         if _filter_codes rows0 q ≠ [] then (_filter_codes rows0 q, dbg1)
         else scanPart fetch q scan_all dbg1
       else scanPart fetch q scan_all dbg1) := by
  rw [fetch_region_cd, hdirect]

theorem fetch_region_cd_direct_err {fetch : FetchFun} {q : String}
    {page : Nat} {e : String} (scan_all : Bool)
    (hdirect : fetch q page = .error e) :
    fetch_region_cd fetch q page scan_all =
      scanPart fetch q scan_all { query := q, direct_error := some e } := by
  rw [fetch_region_cd, hdirect]

/-- C3: when the direct phase yields no codes and the nationwide scan
is enabled, `fetch_region_cd` returns exactly the filtered codes (under
the original query) of the first province in `PROVINCES` order whose
fetched rows filter non-empty, and the recorded scan trace shows that
exactly the provinces up to and including that one were fetched — none
after it. -/
theorem fetch_region_cd_scan_first (fetch : FetchFun) (q : String) (page : Nat)
    (rows0 : List RegistryRow) (hd0 : List (String × JVal)) (sch0 : String)
    (pre post : List String) (P : String)
    (rowsP : List RegistryRow) (hdP : List (String × JVal)) (schP : String)
    (hdirect : fetch q page = .ok ((rows0, hd0), sch0))
    (hnone : _filter_codes rows0 q = [])
    (hprovs : PROVINCES = pre ++ P :: post)
    (hpre : ∀ p ∈ pre, ∃ rows hd sch,
      fetch p 1 = .ok ((rows, hd), sch) ∧ _filter_codes rows q = [])
    (hP : fetch P 1 = .ok ((rowsP, hdP), schP))
    (hPne : _filter_codes rowsP q ≠ []) :
    (fetch_region_cd fetch q page true).1 = _filter_codes rowsP q ∧
    ((fetch_region_cd fetch q page true).2).scanned.map ScanRec.prov
      = pre ++ [P] := by
  rw [fetch_region_cd_direct_ok true hdirect]
  have hscan : ∀ dbg : Dbg, dbg.scanned = [] →
      (scanPart fetch q true dbg).1 = _filter_codes rowsP q ∧
      ((scanPart fetch q true dbg).2).scanned.map ScanRec.prov
        = pre ++ [P] := by
    intro dbg hdbg
    rw [scanPart, if_pos rfl, hprovs]
    obtain ⟨h1, h2, _⟩ := scanLoop_first_hit fetch q pre P post dbg
      rowsP hdP schP hpre hP hPne
    refine ⟨h1, ?_⟩
    rw [h2, hdbg]
    simp
  by_cases hr0 : rows0 ≠ []
  · rw [if_pos hr0, if_neg (by simp [hnone])]
    exact hscan _ rfl
  · rw [if_neg hr0]
    exact hscan _ rfl

/-- Concrete row used by the resolver witnesses. -/
def seoulRow : RegistryRow :=
  { locatadd_nm := some "서울특별시 강남구 개포동", region_cd := some "1168010300" }

/-- Witness fetch for C3: the direct query finds nothing; the first
province's rows contain the match. -/
def c3Fetch : FetchFun := fun s _ =>
  if s = "서울특별시" then .ok (([seoulRow], []), "https")
  else .ok (([], []), "https")

/-- C3 witness: with province order `서울특별시 :: rest` and a match in
`서울특별시`, the scan stops there. -/
theorem fetch_region_cd_scan_first_witness :
    (fetch_region_cd c3Fetch "개포동" 1 true).1 =
      _filter_codes [seoulRow] "개포동" ∧
    ((fetch_region_cd c3Fetch "개포동" 1 true).2).scanned.map ScanRec.prov
      = [] ++ ["서울특별시"] :=
  fetch_region_cd_scan_first c3Fetch "개포동" 1 [] [] "https"
    [] PROVINCES.tail "서울특별시" [seoulRow] [] "https"
    rfl rfl rfl
    (fun p hp => absurd hp (List.not_mem_nil p))
    rfl (by decide)

/-- C4: if the direct-phase fetch raises, the scan is enabled, and some
province (the first matching one in order) yields rows matching the
original query, then `fetch_region_cd` returns that province's filtered
codes instead of propagating the failure, and the returned debug info
records the direct-phase error under `direct_error` together with the
scan-phase province record. -/
theorem fetch_region_cd_recovers (fetch : FetchFun) (q : String) (page : Nat)
    (e : String) (pre post : List String) (P : String)
    (rowsP : List RegistryRow) (hdP : List (String × JVal)) (schP : String)
    (hdirect : fetch q page = .error e)
    (hprovs : PROVINCES = pre ++ P :: post)
    (hpre : ∀ p ∈ pre, ∃ rows hd sch,
      fetch p 1 = .ok ((rows, hd), sch) ∧ _filter_codes rows q = [])
    (hP : fetch P 1 = .ok ((rowsP, hdP), schP))
    (hPne : _filter_codes rowsP q ≠ []) :
    (fetch_region_cd fetch q page true).1 = _filter_codes rowsP q ∧
    ((fetch_region_cd fetch q page true).2).direct_error = some e ∧
    ((fetch_region_cd fetch q page true).2).scanned.map ScanRec.prov
      = pre ++ [P] := by
  rw [fetch_region_cd_direct_err true hdirect, scanPart, if_pos rfl, hprovs]
  obtain ⟨h1, h2, h3⟩ := scanLoop_first_hit fetch q pre P post
    { query := q, direct_error := some e } rowsP hdP schP hpre hP hPne
  refine ⟨h1, by rw [h3], ?_⟩
  rw [h2]
  simp

/-- Witness fetch for C4: the direct query raises; the first province
recovers it. -/
def c4Fetch : FetchFun := fun s _ =>
  if s = "개포동" then .error "FetchFailure: timeout"
  else if s = "서울특별시" then .ok (([seoulRow], []), "http")
  else .ok (([], []), "https")

/-- C4 witness: the scan recovers a direct-phase failure and the debug
info shows both phases. -/
theorem fetch_region_cd_recovers_witness :
    (fetch_region_cd c4Fetch "개포동" 1 true).1 =
      _filter_codes [seoulRow] "개포동" ∧
    ((fetch_region_cd c4Fetch "개포동" 1 true).2).direct_error =
      some "FetchFailure: timeout" ∧
    ((fetch_region_cd c4Fetch "개포동" 1 true).2).scanned.map ScanRec.prov
      = [] ++ ["서울특별시"] :=
  fetch_region_cd_recovers c4Fetch "개포동" 1 "FetchFailure: timeout"
    [] PROVINCES.tail "서울특별시" [seoulRow] [] "http"
    rfl rfl
    (fun p hp => absurd hp (List.not_mem_nil p))
    rfl (by decide)

theorem scanLoop_no_hit (fetch : FetchFun) (q : String) :
    ∀ (provs : List String) (dbg : Dbg),
      (∀ p ∈ provs, (∃ err, fetch p 1 = .error err) ∨
        (∀ rows hd sch, fetch p 1 = .ok ((rows, hd), sch) →
          _filter_codes rows q = [])) →
      (scanLoop fetch q provs [] dbg).1 = [] ∧
      ((scanLoop fetch q provs [] dbg).2).direct_error = dbg.direct_error := by
  intro provs
  induction provs with
  | nil =>
    intro dbg _
    exact ⟨rfl, rfl⟩
  | cons p rest ih =>
    intro dbg h
    rcases hf : fetch p 1 with e | ⟨⟨rows, hd⟩, sch⟩
    · rw [scanLoop_cons_err rest [] dbg hf]
      exact ih _ (fun p' hp' => h p' (by simp [hp']))
    · have hfe : _filter_codes rows q = [] := by
        rcases h p (by simp) with ⟨err, herr⟩ | hok
        · rw [hf] at herr
          exact absurd herr (by simp)
        · exact hok rows hd sch hf
      rw [scanLoop_cons_ok rest [] dbg hf]
      have hfound2 : (if rows ≠ [] then
          ([] : List String) ++ _filter_codes rows q else []) = [] := by
        rw [hfe]
        simp
      rw [hfound2]
      simp only [ne_eq, not_true_eq_false, if_false, ite_self]
      exact ih _ (fun p' hp' => h p' (by simp [hp']))

/-- C5: when the direct-phase fetch fails and no scan fallback recovers
it (the scan is disabled, or every province errors or filters to
nothing), `fetch_region_cd` returns no codes while the returned debug
mapping carries the failure under `direct_error` — so the caller can
distinguish this transport error from a plain not-found result, whose
`direct_error` is `none`. -/
theorem fetch_region_cd_surfaces_error (fetch : FetchFun) (q : String)
    (page : Nat) (e : String) (sa : Bool)
    (hdirect : fetch q page = .error e)
    (hscan : sa = true → ∀ p ∈ PROVINCES,
      (∃ err, fetch p 1 = .error err) ∨
      (∀ rows hd sch, fetch p 1 = .ok ((rows, hd), sch) →
        _filter_codes rows q = [])) :
    (fetch_region_cd fetch q page sa).1 = [] ∧
    ((fetch_region_cd fetch q page sa).2).direct_error = some e := by
  rw [fetch_region_cd_direct_err sa hdirect, scanPart]
  cases sa with
  | false => exact ⟨rfl, rfl⟩
  | true =>
    rw [if_pos rfl]
    obtain ⟨h1, h2⟩ := scanLoop_no_hit fetch q PROVINCES
      { query := q, direct_error := some e } (hscan rfl)
    exact ⟨h1, h2⟩

/-- Witness fetch for C5: every request fails. -/
def c5Fetch : FetchFun := fun _ _ => .error "FetchFailure: down"

/-- C5 witness: with every fetch failing, the resolver returns no codes
and records the direct-phase failure. -/
theorem fetch_region_cd_surfaces_error_witness :
    (fetch_region_cd c5Fetch "개포동" 1 true).1 = [] ∧
    ((fetch_region_cd c5Fetch "개포동" 1 true).2).direct_error =
      some "FetchFailure: down" :=
  fetch_region_cd_surfaces_error c5Fetch "개포동" 1 "FetchFailure: down" true
    rfl (fun _ _ _ => Or.inl ⟨"FetchFailure: down", rfl⟩)
